import Mathlib

set_option maxHeartbeats 1000000

/-!
Shallow embedding of the HeavyBall cached PSGD-Kron optimizer
(src/heavyball/utils.py and src/heavyball/cached_psgd_kron.py) and proofs
about it.  Python floats are modelled by real numbers (exact arithmetic)
where the claims are numeric, and by rationals where decidability is needed
for configuration checks; tensors are modelled by lists or functions with
explicit shapes.
-/

namespace HeavyBall

/-! ### dim_merger (utils.py, lines 54-98, non-split mode) -/

/-- Body of the loop over the reversed tail of the shape in dim_merger
(utils.py lines 66-78).  The accumulator pair holds the list new_shape
built so far and the running product curr_shape. -/
def dimMergerStep (max_precond_dim : ℕ) (p : List ℕ × ℕ) (sh : ℕ) : List ℕ × ℕ :=
  let temp_shape := p.2 * sh
  if max_precond_dim < temp_shape then
    if 1 < p.2 then (p.1 ++ [p.2], sh) else (p.1 ++ [sh], 1)
  else (p.1, temp_shape)

/-- Shape computed by dim_merger in non-split mode (utils.py lines 63-86):
fold dimMergerStep over shape[1:] reversed, prepend shape[:1] to the
reversed accumulator, then append curr_shape when it exceeds 1 or the list
is empty. -/
def dim_merger_shape (shape : List ℕ) (max_precond_dim : ℕ) : List ℕ :=
  let r := ((shape.drop 1).reverse).foldl (dimMergerStep max_precond_dim) ([], 1)
  let new_shape := shape.take 1 ++ r.1.reverse
  if 1 < r.2 ∨ new_shape.length = 0 then new_shape ++ [r.2] else new_shape

/-! ### promote (utils.py, lines 308-313) -/

/-- Torch dtypes distinguished by the promote helper. -/
inductive DType
  | bfloat16
  | float16
  | float32
  | other
  deriving DecidableEq, Repr

/-- A Python tensor object: an allocation id (modelling object identity)
and a dtype. -/
structure PyTensor where
  tid : ℕ
  dtype : DType
  deriving DecidableEq, Repr

/-- Python heap state: the next free allocation id.  Every live object has
an id strictly below counter. -/
structure PyState where
  counter : ℕ
  deriving DecidableEq, Repr

/-- Result of promote: either the torch.float32 dtype object (what the
first, identity-comparison branch would return) or a tensor. -/
inductive PromoteRes
  | dtypeFloat32
  | tensor (t : PyTensor)
  deriving DecidableEq, Repr

/-- Models x.float(): allocates a fresh float32 tensor. -/
def tensorFloat (_x : PyTensor) (s : PyState) : PyTensor × PyState :=
  ({ tid := s.counter, dtype := DType.float32 }, { counter := s.counter + 1 })

/-- Shallow embedding of promote (utils.py lines 308-313).  Python object
identity is modelled by allocation ids: evaluating the tuple display
(torch.bfloat16, torch.float16) allocates a fresh object whose id is the
current counter, and the operator is compares ids.  The second branch
tests membership of x.dtype in the dtype pair, the third returns x. -/
def promote (x : PyTensor) (s : PyState) : PromoteRes × PyState :=
  let tupleId := s.counter
  let s1 : PyState := { counter := s.counter + 1 }
  if x.tid = tupleId then (PromoteRes.dtypeFloat32, s1)
  else if x.dtype = DType.bfloat16 ∨ x.dtype = DType.float16 then
    let r := tensorFloat x s1
    (PromoteRes.tensor r.1, r.2)
  else (PromoteRes.tensor x, s1)

/-! ### Constructor validation (cached_psgd_kron.py, lines 44-49) -/

/-- Validation performed by ForeachCachedPSGDKron.init before any step
(cached_psgd_kron.py lines 44-49).  Exactly three range checks run; the
memory_save_mode argument is stored without validation. -/
def foreachCachedPSGDKron_init (lr beta weight_decay : ℚ)
    (_memory_save_mode : Option String) : Except String Unit :=
  if ¬ (0 ≤ lr) then Except.error "Invalid learning rate"
  else if ¬ (0 ≤ beta ∧ beta < 1) then Except.error "Invalid beta parameter"
  else if ¬ (0 ≤ weight_decay) then Except.error "Invalid weight_decay value"
  else Except.ok ()

/-- The documented set of memory-save policies. -/
def isValidMode (memory_save_mode : Option String) : Prop :=
  memory_save_mode = none ∨ memory_save_mode = some "one_diag" ∨
    memory_save_mode = some "all_diag"

instance : DecidablePred isValidMode := fun m => by
  unfold isValidMode
  infer_instance

/-! ### np.argsort model and the memory-save policies (utils.py, lines 486-496) -/

/-- Comparison used to model np.argsort: index pairs (value, index) ordered
lexicographically.  Sorting by this order is exactly a stable ascending
argsort, which matches the numpy insertion sort used on small arrays. -/
def argLe (a b : ℕ × ℕ) : Prop :=
  a.1 < b.1 ∨ (a.1 = b.1 ∧ a.2 ≤ b.2)

instance : DecidableRel argLe := fun a b => by
  unfold argLe
  infer_instance

instance : IsTotal (ℕ × ℕ) argLe :=
  ⟨by intro a b; unfold argLe; omega⟩

instance : IsTrans (ℕ × ℕ) argLe :=
  ⟨by intro a b c; unfold argLe; omega⟩

/-- List of (value, index) pairs for a shape, the input to the sort. -/
def keyedList (vals : List ℕ) : List (ℕ × ℕ) :=
  (List.range vals.length).map fun i => (vals.getD i 0, i)

/-- Model of np.argsort on a list of sizes: stable ascending argsort. -/
def np_argsort (vals : List ℕ) : List ℕ :=
  (List.insertionSort argLe (keyedList vals)).map Prod.snd

/-- Lines 489-491 of utils.py: rev_sorted_dims = np.argsort(shape)[::-1];
dim_diag = [False] * len(shape); dim_diag[rev_sorted_dims[0]] = True. -/
def one_diag_dims (shape : List ℕ) : List Bool :=
  let rev_sorted_dims := (np_argsort shape).reverse
  (List.replicate shape.length false).set (rev_sorted_dims.headD 0) true

/-- The dim_diag list computed by init_Q_exprs from memory_save_mode
(utils.py lines 486-496); an unrecognized mode raises ValueError. -/
def dim_diag_of (memory_save_mode : Option String) (shape : List ℕ) :
    Except String (List Bool) :=
  if memory_save_mode = none then Except.ok (List.replicate shape.length false)
  else if memory_save_mode = some "one_diag" then Except.ok (one_diag_dims shape)
  else if memory_save_mode = some "all_diag" then
    Except.ok (List.replicate shape.length true)
  else Except.error "Invalid memory_save_mode"

/-! ### init_Q_exprs (utils.py, lines 464-540, factor construction) -/

/-- A preconditioner factor: a 0-dim scalar tensor (rank-0 parameter), a
1-D diagonal vector, or a 2-D matrix stored as a list of rows. -/
inductive QFactor
  | scalarF (v : ℝ)
  | diagF (v : List ℝ)
  | triF (m : List (List ℝ))

/-- Entry-wise model of scale * torch.eye(n). -/
noncomputable def eyeScaled (n : ℕ) (s : ℝ) : List (List ℝ) :=
  (List.range n).map fun i => (List.range n).map fun j => s * (if i = j then 1 else 0)

/-- Error message raised by init_Q_exprs for tensors of rank above 13. -/
def rankErrMsg (n : ℕ) : String :=
  "Got tensor with dim " ++ toString n ++ "; Einstein runs out of letters!"

/-- Factor-list construction of init_Q_exprs (utils.py lines 464-540).
The scalar case returns a single 0-dim factor; rank above 13 raises; then
scale is replaced by scale ** (1 / rank), dim_diag is derived from
memory_save_mode, and each axis gets a diagonal factor (scale-weighted
ones of the axis size) when its size is 1, exceeds max_size, the rank is
below min_ndim_triangular or the axis is marked diagonal, and otherwise a
triangular factor scale * eye(size).  The einsum expression strings built
alongside the factors are not modelled; no claim mentions their content. -/
noncomputable def init_Q_exprs (shape : List ℕ) (scale : ℝ)
    (max_size min_ndim_triangular : ℕ) (memory_save_mode : Option String) :
    Except String (List QFactor) :=
  if shape.length = 0 then Except.ok [QFactor.scalarF scale]
  else if 13 < shape.length then Except.error (rankErrMsg shape.length)
  else
    let scale2 := scale ^ ((1 : ℝ) / (shape.length : ℝ))
    match dim_diag_of memory_save_mode shape with
    | Except.error e => Except.error e
    | Except.ok dim_diag =>
      Except.ok ((shape.zip dim_diag).map fun sd =>
        if sd.1 = 1 ∨ max_size < sd.1 ∨ shape.length < min_ndim_triangular ∨
            sd.2 = true then
          QFactor.diagF (List.replicate sd.1 scale2)
        else
          QFactor.triF (eyeScaled sd.1 scale2))

/-- Whether a factor is a diagonal (1-D) factor. -/
def QFactor.isDiag : QFactor → Bool
  | QFactor.diagF _ => true
  | _ => false

/-- Tensor shape of a factor, used to model torch.empty_like. -/
def QFactor.shapeOf : QFactor → List ℕ
  | QFactor.scalarF _ => []
  | QFactor.diagF v => [v.length]
  | QFactor.triF m => [m.length, m.length]

/-! ### Lazy per-parameter state creation (cached_psgd_kron.py, lines 95-108) -/

/-- Per-parameter optimizer state as allocated by the lazy-init block of
ForeachCachedPSGDKron step.  exp_avg records the shape of the allocated
momentum buffer (torch.zeros_like g); qFactors the preconditioner factors;
qCache the shapes of the torch.empty_like cache buffers.  A field is none
while the corresponding allocation has not happened. -/
structure ParamState where
  exp_avg : Option (List ℕ)
  qFactors : Option (List QFactor)
  qCache : Option (List (List ℕ))

/-- Lazy state creation for one parameter (cached_psgd_kron.py lines
95-108): the momentum buffer is assigned first, then init_Q_exprs runs;
on failure the exception propagates with only exp_avg assigned, on success
Q and the Q_cache buffers are stored.  The cache_expr string is not
modelled.  Returns the resulting state and the raised error, if any. -/
noncomputable def initParamState (shape : List ℕ) (scale : ℝ)
    (max_size min_ndim_triangular : ℕ) (memory_save_mode : Option String) :
    ParamState × Option String :=
  let st : ParamState := { exp_avg := some shape, qFactors := none, qCache := none }
  match init_Q_exprs shape scale max_size min_ndim_triangular memory_save_mode with
  | Except.error e => (st, some e)
  | Except.ok Q =>
    ({ st with qFactors := some Q, qCache := some (Q.map QFactor.shapeOf) }, none)

/-! ### psgd_balance_Q (utils.py, lines 543-548) -/

/-- Infinity norm of a flattened tensor: q.norm(inf) is the maximum of the
absolute values of the entries (0 for an empty tensor). -/
noncomputable def infNorm (q : List ℝ) : ℝ :=
  (q.map fun x => |x|).foldr max 0

/-- Models norms.log().mean().exp() on the stacked norms. -/
noncomputable def geoMean (norms : List ℝ) : ℝ :=
  Real.exp ((norms.map Real.log).sum / norms.length)

/-- Shallow embedding of psgd_balance_Q (utils.py lines 543-548): stack the
infinity norms, form the geometric mean, invert into per-factor scales and
multiply each factor in place by its scale. -/
noncomputable def psgd_balance_Q (Q_in : List (List ℝ)) : List (List ℝ) :=
  let norms := Q_in.map infNorm
  let geometric_mean := geoMean norms
  let scales := norms.map fun n => geometric_mean / n
  List.zipWith (fun s q => q.map fun x => s * x) scales Q_in

/-! ### precond_update_prob_schedule (utils.py, lines 654-674) -/

/-- Shallow embedding of the closure returned by
precond_update_prob_schedule (utils.py lines 666-672).  Note the source
subtracts flat_start from n and then subtracts flat_start again inside the
exponential. -/
noncomputable def precond_update_prob_schedule
    (max_prob min_prob decay : ℝ) (flat_start : ℕ) (n : ℕ) : ℝ :=
  if n < flat_start then max_prob
  else
    let n2 : ℝ := (n : ℝ) - (flat_start : ℝ)
    let prob := max_prob * Real.exp (-decay * (n2 - (flat_start : ℝ)))
    max min_prob (min max_prob prob)

/-- The default schedule: precond_update_prob_schedule with its default
arguments max_prob = 1.0, min_prob = 0.03, decay = 0.001, flat_start = 250. -/
noncomputable def defaultSchedule (n : ℕ) : ℝ :=
  precond_update_prob_schedule 1.0 0.03 0.001 250 n

/-! ### psgd_lb and psgd_update_precond (utils.py, lines 571-613) -/

/-- Index of the maximum of f, first occurrence, modelling torch.max along
a dimension. -/
noncomputable def argmaxFin {m : ℕ} (f : Fin (m + 1) → ℝ) : Fin (m + 1) :=
  (List.finRange (m + 1)).foldl (fun best k => if f best < f k then k else best) 0

/-- Euclidean norm of a vector, modelling torch.linalg.vector_norm. -/
noncomputable def vecNorm2 {m : ℕ} (x : Fin m → ℝ) : ℝ :=
  Real.sqrt (∑ k, x k * x k)

/-- Shallow embedding of psgd_lb (utils.py lines 571-588) on real square
matrices: divide by max_abs, take entry squares, pick the dominant column
or row by comparing the largest column sum against the largest row sum,
run the two matrix-vector products with a normalization in between, and
return the final Euclidean norm rescaled by max_abs.  For a real matrix
the conjugations are identities and A.H is the transpose. -/
noncomputable def psgd_lb {m : ℕ} (A : Matrix (Fin (m + 1)) (Fin (m + 1)) ℝ)
    (max_abs : ℝ) : ℝ :=
  let B := fun i j => A i j / max_abs
  let aa := fun i j => B i j * B i j
  let i := argmaxFin fun j => ∑ k, aa k j
  let value0 := ∑ k, aa k i
  let j := argmaxFin fun r => ∑ k, aa r k
  let value1 := ∑ k, aa j k
  if value1 < value0 then
    let x0 := fun k => B k i
    let x1 := fun c => ∑ k, x0 k * B k c
    let x2 := fun c => x1 c / vecNorm2 x1
    let x3 := fun c => ∑ k, x2 k * B c k
    vecNorm2 x3 * max_abs
  else
    let x0 := fun k => B j k
    let x1 := fun c => ∑ k, x0 k * B c k
    let x2 := fun c => x1 c / vecNorm2 x1
    let x3 := fun c => ∑ k, x2 k * B k c
    vecNorm2 x3 * max_abs

/-- Infinity norm of a square matrix as a tensor: max of absolute entries. -/
noncomputable def matInfNorm {m : ℕ} (A : Matrix (Fin m) (Fin m) ℝ) : ℝ :=
  infNorm ((List.finRange m).flatMap fun i => (List.finRange m).map fun j => A i j)

/-- Models torch.triu: keep the entries on and above the main diagonal. -/
def triuM {m : ℕ} (A : Matrix (Fin m) (Fin m) ℝ) : Matrix (Fin m) (Fin m) ℝ :=
  fun i j => if (i : ℕ) ≤ (j : ℕ) then A i j else 0

/-- Body of the update loop of psgd_update_precond (utils.py lines
597-609) for a diagonal factor q, where the two exprGs contractions
einsum(exprG, A, A.conj()) and einsum(exprG, conjB.conj(), conjB) have
values a and b: term2 += term1; term1 *= 2; term1 -= term2;
term1 *= step; term1 *= q; q.addcdiv_(term1, norm.clamp(min=tiny), -1). -/
noncomputable def psgd_update_precond_diag {m : ℕ} (q a b : Fin m → ℝ)
    (step tiny : ℝ) : Fin m → ℝ :=
  let term2 := fun i => b i + a i
  let term1 := fun i => a i * 2
  let term1 := fun i => term1 i - term2 i
  let term1 := fun i => term1 i * step
  let norm := infNorm ((List.finRange m).map term2)
  let term1 := fun i => term1 i * q i
  fun i => q i - term1 i / max norm tiny

/-- Body of the update loop of psgd_update_precond (utils.py lines
597-613) for a triangular factor q, with the two exprGs contraction values
A and B: after forming step * (2 term1 - (term1 + term2)), the correction
is upper-triangularized, divided by where(norm > 0, psgd_lb(term2, norm),
norm).clamp(tiny), and applied by q.addmm_(term1, q, alpha=-1). -/
noncomputable def psgd_update_precond_triu {m : ℕ}
    (q A B : Matrix (Fin (m + 1)) (Fin (m + 1)) ℝ) (step tiny : ℝ) :
    Matrix (Fin (m + 1)) (Fin (m + 1)) ℝ :=
  let term2 : Matrix (Fin (m + 1)) (Fin (m + 1)) ℝ := fun i j => B i j + A i j
  let term1 : Matrix (Fin (m + 1)) (Fin (m + 1)) ℝ := fun i j => A i j * 2
  let term1 : Matrix (Fin (m + 1)) (Fin (m + 1)) ℝ := fun i j => term1 i j - term2 i j
  let term1 : Matrix (Fin (m + 1)) (Fin (m + 1)) ℝ := fun i j => term1 i j * step
  let norm := matInfNorm term2
  let term1 := triuM term1
  let divisor := max (if 0 < norm then psgd_lb term2 norm else norm) tiny
  let term1 : Matrix (Fin (m + 1)) (Fin (m + 1)) ℝ := fun i j => term1 i j / divisor
  fun i j => q i j - (term1 * q) i j

/-! ### Per-parameter step body (cached_psgd_kron.py, lines 124-142) -/

/-- The tensor operations the per-parameter step body composes, kept
abstract: the combined cache-expression einsum, the refresh of Q (balance
followed by do_update, which updates the factors in place; with the
default q_dtype float32 the promote calls are identities so the updated
factors are the stored ones), the two cache rebuild primitives and the
2-D test. -/
structure TensorOps (τ : Type) where
  einsumCache : List τ → τ → τ
  refreshQ : List τ → τ → τ → List τ
  matmulTConj : τ → τ → τ
  mulConj : τ → τ → τ
  isMatrix : τ → Bool

/-- Per-parameter slice of the optimizer state inside one step: factors Q,
cache Q_cache, the momentum buffer ea after the foreach_lerp momentum
update, and the raw gradient g. -/
structure ParamSlice (τ : Type) where
  qList : List τ
  qCache : List τ
  ea : τ
  g : τ

/-- Shallow embedding of the per-parameter body of ForeachCachedPSGDKron
step (cached_psgd_kron.py lines 124-142): new = einsum(cache_expr,
*cached_q, ea) runs first; only then, when do_update holds, the factors
are refreshed (balance + do_update on the momentum buffer, the default
momentum_into_precond_update) and every cache entry is recomputed from the
refreshed factor, matmul(q.T.conj(), q) for a 2-D factor and
mul(q.conj(), q) otherwise.  Returns the preconditioned gradient written
back by set_ and the updated slice. -/
def stepParam {τ : Type} (ops : TensorOps τ) (do_update : Bool)
    (s : ParamSlice τ) : τ × ParamSlice τ :=
  let new := ops.einsumCache s.qCache s.ea
  if do_update then
    let q := ops.refreshQ s.qList s.g s.ea
    let cache := q.map fun q_ =>
      if ops.isMatrix q_ then ops.matmulTConj q_ q_ else ops.mulConj q_ q_
    (new, { s with qList := q, qCache := cache })
  else (new, s)

/-! ### Theorems -/

theorem dimMergerStep_spec (maxd sh : ℕ) (acc : List ℕ × ℕ) (hacc : 0 < acc.2)
    (hsh : 0 < sh) :
    0 < (dimMergerStep maxd acc sh).2 ∧
      (dimMergerStep maxd acc sh).1.prod * (dimMergerStep maxd acc sh).2 =
        acc.1.prod * acc.2 * sh := by
  unfold dimMergerStep
  dsimp only
  split_ifs with h1 h2
  · refine ⟨hsh, ?_⟩
    simp only [List.prod_append, List.prod_cons, List.prod_nil]
    ring
  · have h3 : acc.2 = 1 := by omega
    refine ⟨Nat.one_pos, ?_⟩
    simp only [List.prod_append, List.prod_cons, List.prod_nil, h3]
    ring
  · exact ⟨Nat.mul_pos hacc hsh, by rw [Nat.mul_assoc]⟩

theorem dimMergerFold_spec (maxd : ℕ) :
    ∀ (l : List ℕ) (acc : List ℕ × ℕ), (∀ d ∈ l, 0 < d) → 0 < acc.2 →
      0 < (l.foldl (dimMergerStep maxd) acc).2 ∧
        (l.foldl (dimMergerStep maxd) acc).1.prod *
            (l.foldl (dimMergerStep maxd) acc).2 =
          acc.1.prod * acc.2 * l.prod
  | [], acc, _, hacc => by simpa using hacc
  | sh :: rest, acc, hl, hacc => by
    have hsh : 0 < sh := hl sh (by simp)
    have step := dimMergerStep_spec maxd sh acc hacc hsh
    have ih := dimMergerFold_spec maxd rest (dimMergerStep maxd acc sh)
      (fun d hd => hl d (by simp [hd])) step.1
    refine ⟨by simpa using ih.1, ?_⟩
    simp only [List.foldl_cons]
    rw [ih.2, step.2, List.prod_cons]
    ring

/-- C10 counterexample: on the shape (2, 0) with max_precond_dim 4 the
merged shape is [2], whose element product 2 differs from the original
product 0, so the claimed size-validity fails for shapes with a zero
dimension. -/
theorem c10_counterexample :
    dim_merger_shape [2, 0] 4 = [2] ∧
      (dim_merger_shape [2, 0] 4).prod ≠ ([2, 0] : List ℕ).prod := by
  exact ⟨rfl, by decide⟩

/-- C10 (amended): for every tensor shape all of whose dimension sizes are
positive and every max_precond_dim at least 1, the merged shape computed by
dim_merger in non-split mode has the same product of dimension sizes as the
original shape, including rank-0 and rank-1 inputs. -/
theorem c10_dim_merger_preserves_numel (shape : List ℕ) (max_precond_dim : ℕ)
    (_hmax : 1 ≤ max_precond_dim) (hpos : ∀ d ∈ shape, 0 < d) :
    (dim_merger_shape shape max_precond_dim).prod = shape.prod := by
  cases shape with
  | nil => simp [dim_merger_shape]
  | cons a t =>
    have hfold := dimMergerFold_spec max_precond_dim t.reverse ([], 1)
      (fun d hd => hpos d (by simp at hd; simp [hd])) Nat.one_pos
    set r := t.reverse.foldl (dimMergerStep max_precond_dim) ([], 1) with hr
    have hprod : r.1.prod * r.2 = t.prod := by
      have h2 := hfold.2
      simpa [List.prod_reverse] using h2
    have hpos2 : 0 < r.2 := hfold.1
    unfold dim_merger_shape
    dsimp only
    simp only [List.drop_succ_cons, List.drop_zero, List.take_succ_cons,
      List.take_zero]
    rw [← hr]
    by_cases hc : 1 < r.2
    · rw [if_pos (Or.inl hc)]
      simp only [List.cons_append, List.nil_append, List.prod_cons,
        List.prod_append, List.prod_reverse, List.prod_nil, Nat.mul_one]
      rw [hprod]
    · have h1 : r.2 = 1 := by omega
      rw [if_neg (by simp [hc])]
      simp only [List.cons_append, List.nil_append, List.prod_cons,
        List.prod_reverse]
      rw [h1, Nat.mul_one] at hprod
      rw [hprod]

theorem c10_dim_merger_preserves_numel_witness :
    1 ≤ 4 ∧ (dim_merger_shape [128, 64, 3, 3] 4).prod = ([128, 64, 3, 3] : List ℕ).prod :=
  ⟨by decide, c10_dim_merger_preserves_numel [128, 64, 3, 3] 4 (by decide) (by decide)⟩

/-- C9: for a pre-existing tensor x (its allocation id precedes the
freshly constructed tuple), the condition x is (torch.bfloat16,
torch.float16) in promote is false, so promote never returns the dtype
object; it returns x.float() exactly when the dtype of x is bfloat16 or
float16, and x unchanged otherwise. -/
theorem c9_promote_is_check_false (x : PyTensor) (s : PyState)
    (hx : x.tid < s.counter) :
    (promote x s).1 ≠ PromoteRes.dtypeFloat32 ∧
      ((x.dtype = DType.bfloat16 ∨ x.dtype = DType.float16) →
        (promote x s).1 = PromoteRes.tensor ⟨s.counter + 1, DType.float32⟩) ∧
      (¬ (x.dtype = DType.bfloat16 ∨ x.dtype = DType.float16) →
        (promote x s).1 = PromoteRes.tensor x) := by
  have hne : x.tid ≠ s.counter := Nat.ne_of_lt hx
  by_cases hd : x.dtype = DType.bfloat16 ∨ x.dtype = DType.float16 <;>
    simp [promote, tensorFloat, hne, hd]

theorem c9_promote_is_check_false_witness :
    (0 : ℕ) < 1 ∧ (promote ⟨0, DType.bfloat16⟩ ⟨1⟩).1 ≠ PromoteRes.dtypeFloat32 :=
  ⟨by decide, (c9_promote_is_check_false ⟨0, DType.bfloat16⟩ ⟨1⟩ (by decide)).1⟩

/-- C3 counterexample: a configuration with valid learning rate, beta and
weight decay but a memory-save policy outside the documented set passes
construction (the constructor raises nothing), so the invalid policy is
not surfaced at construction time as the claim states. -/
theorem c3_counterexample :
    foreachCachedPSGDKron_init (1 / 1000) (9 / 10) 0 (some "bogus") = Except.ok () ∧
      ¬ isValidMode (some "bogus") := by
  refine ⟨?_, by decide⟩
  norm_num [foreachCachedPSGDKron_init]

/-- C3 (amended): construction fails fast exactly for the three numeric
range violations (negative learning rate, beta outside the unit interval,
negative weight decay); an unrecognized memory-save policy string passes
construction and raises only at the first optimization step, inside
init_Q_exprs. -/
theorem c3_config_validation :
    (∀ (lr beta weight_decay : ℚ) (mode : Option String),
        foreachCachedPSGDKron_init lr beta weight_decay mode = Except.ok () ↔
          (0 ≤ lr ∧ (0 ≤ beta ∧ beta < 1) ∧ 0 ≤ weight_decay)) ∧
    (∀ (shape : List ℕ) (scale : ℝ) (max_size min_ndim : ℕ) (mode : Option String),
        ¬ isValidMode mode → shape.length ≠ 0 → shape.length ≤ 13 →
          init_Q_exprs shape scale max_size min_ndim mode =
            Except.error "Invalid memory_save_mode") := by
  constructor
  · intro lr beta wd mode
    unfold foreachCachedPSGDKron_init
    split_ifs with h1 h2 h3 <;> simp_all
  · intro shape scale maxs minnd mode hmode h0 h13
    have hdd : dim_diag_of mode shape = Except.error "Invalid memory_save_mode" := by
      unfold dim_diag_of
      unfold isValidMode at hmode
      split_ifs with m1 m2 m3 <;> simp_all
    unfold init_Q_exprs
    rw [if_neg h0, if_neg (by omega)]
    simp [hdd]

theorem c3_config_validation_witness :
    (foreachCachedPSGDKron_init 1 (1 / 2) 1 none = Except.ok () ↔
      (0 ≤ (1 : ℚ) ∧ ((0 : ℚ) ≤ 1 / 2 ∧ (1 : ℚ) / 2 < 1) ∧ 0 ≤ (1 : ℚ))) ∧
    init_Q_exprs [4] 1 8 1 (some "bad") = Except.error "Invalid memory_save_mode" :=
  ⟨c3_config_validation.1 1 (1 / 2) 1 none,
   c3_config_validation.2 [4] 1 8 1 (some "bad") (by decide) (by decide) (by decide)⟩

/-- C4 counterexample: for a rank-14 parameter the first step raises the
rank error, but the momentum buffer has already been assigned into the
state when the exception propagates, so the failure does not occur before
any per-parameter state is allocated. -/
theorem c4_counterexample :
    (initParamState (List.replicate 14 2) 1 2048 2 none).2 = some (rankErrMsg 14) ∧
      (initParamState (List.replicate 14 2) 1 2048 2 none).1.exp_avg ≠ none := by
  constructor
  · rfl
  · intro h
    simp [initParamState, init_Q_exprs] at h

/-- C4 (amended): for every parameter tensor of rank greater than 13,
expression synthesis fails with the rank error at the first optimization
step that sees the parameter, before Q or Q_cache is allocated; the
momentum buffer, however, has already been assigned when the error is
raised. -/
theorem c4_rank_too_large (shape : List ℕ) (scale : ℝ) (max_size min_ndim : ℕ)
    (mode : Option String) (h : 13 < shape.length) :
    (initParamState shape scale max_size min_ndim mode).2 =
        some (rankErrMsg shape.length) ∧
      (initParamState shape scale max_size min_ndim mode).1.exp_avg = some shape ∧
      (initParamState shape scale max_size min_ndim mode).1.qFactors = none ∧
      (initParamState shape scale max_size min_ndim mode).1.qCache = none := by
  have h0 : ¬ shape.length = 0 := by omega
  unfold initParamState init_Q_exprs
  rw [if_neg h0, if_pos h]
  exact ⟨rfl, rfl, rfl, rfl⟩

theorem c4_rank_too_large_witness :
    13 < (List.replicate 14 2).length ∧
      (initParamState (List.replicate 14 2) 1 2048 2 none).1.qFactors = none :=
  ⟨by decide, (c4_rank_too_large (List.replicate 14 2) 1 2048 2 none (by decide)).2.2.1⟩

/-- C5: in the per-parameter step body, the preconditioned gradient is the
contraction of the pre-refresh Q_cache with the momentum-smoothed gradient
(computed before the conditional refresh can overwrite Q or Q_cache, and
unchanged by the do_update flag); on refresh steps every Q_cache entry is
recomputed from the refreshed factors, as the matrix product q.T.conj() @ q
for a 2-D factor and the elementwise q.conj() * q otherwise; on non-refresh
steps the state is untouched. -/
theorem c5_cache_read_before_refresh {τ : Type} (ops : TensorOps τ)
    (do_update : Bool) (s : ParamSlice τ) :
    (stepParam ops do_update s).1 = ops.einsumCache s.qCache s.ea ∧
      (stepParam ops true s).2.qCache =
        (ops.refreshQ s.qList s.g s.ea).map (fun q_ =>
          if ops.isMatrix q_ then ops.matmulTConj q_ q_ else ops.mulConj q_ q_) ∧
      (stepParam ops false s).2 = s := by
  cases do_update <;> exact ⟨rfl, rfl, rfl⟩

/-- C7: in psgd_update_precond the applied correction is
(2 term1 - (term1 + term2)) scaled by the step size; a diagonal factor is
updated as q := q - term1 * q / norm with the divisor clamped below by
tiny, and a triangular factor keeps only the upper-triangular part of the
correction and is updated as q := q - term1 @ q in matrix form, with the
stabilizing divisor where(norm > 0, psgd_lb(term2, norm), norm) clamped
below by tiny. -/
theorem c7_update_precond_formulas :
    (∀ (m : ℕ) (q a b : Fin m → ℝ) (step tiny : ℝ),
        psgd_update_precond_diag q a b step tiny = fun i =>
          q i - (2 * a i - (a i + b i)) * step * q i /
            max (infNorm ((List.finRange m).map fun k => b k + a k)) tiny) ∧
    (∀ (m : ℕ) (q A B : Matrix (Fin (m + 1)) (Fin (m + 1)) ℝ) (step tiny : ℝ),
        psgd_update_precond_triu q A B step tiny = fun i j =>
          q i j -
            ((triuM (fun i j => (2 * A i j - (A i j + B i j)) * step) * q) i j) /
              max (if 0 < matInfNorm (fun i j => B i j + A i j) then
                  psgd_lb (fun i j => B i j + A i j)
                    (matInfNorm (fun i j => B i j + A i j))
                else matInfNorm (fun i j => B i j + A i j)) tiny) := by
  constructor
  · intro m q a b step tiny
    funext i
    unfold psgd_update_precond_diag
    dsimp only
    ring
  · intro m q A B step tiny
    funext i j
    unfold psgd_update_precond_triu
    dsimp only
    rw [sub_right_inj, Matrix.mul_apply, Matrix.mul_apply, Finset.sum_div]
    refine Finset.sum_congr rfl fun k _ => ?_
    unfold triuM
    by_cases hik : (i : ℕ) ≤ (k : ℕ)
    · simp only [if_pos hik]
      rw [div_mul_eq_mul_div]
      congr 1
      ring
    · simp only [if_neg hik]
      simp

theorem defaultSchedule_eq (n : ℕ) (h : 250 ≤ n) :
    defaultSchedule n = max 0.03 (min 1 (Real.exp (0.001 * (500 - (n : ℝ))))) := by
  unfold defaultSchedule precond_update_prob_schedule
  rw [if_neg (by omega)]
  dsimp only
  push_cast
  have h1 : (1.0 : ℝ) = 1 := by norm_num
  rw [h1, one_mul]
  congr 3
  ring

theorem defaultSchedule_flat (n : ℕ) (h : n ≤ 500) : defaultSchedule n = 1 := by
  by_cases h250 : n < 250
  · unfold defaultSchedule precond_update_prob_schedule
    rw [if_pos h250]
    norm_num
  · push_neg at h250
    rw [defaultSchedule_eq n h250]
    have hn : (n : ℝ) ≤ 500 := by exact_mod_cast h
    have he : (1 : ℝ) ≤ Real.exp (0.001 * (500 - (n : ℝ))) := by
      apply Real.one_le_exp
      nlinarith
    rw [min_eq_left he]
    exact max_eq_right (by norm_num)

theorem defaultSchedule_tail (n : ℕ) (h : 500 ≤ n) :
    defaultSchedule n = max 0.03 (Real.exp (0.001 * (500 - (n : ℝ)))) := by
  rw [defaultSchedule_eq n (by omega)]
  have hn : (500 : ℝ) ≤ (n : ℝ) := by exact_mod_cast h
  have he : Real.exp (0.001 * (500 - (n : ℝ))) ≤ 1 := by
    rw [Real.exp_le_one_iff]
    nlinarith
  rw [min_eq_right he]

/-- C1 counterexample: the default schedule is not strictly decreasing
from step 250 on: steps 250 and 300 both give probability 1 (the source
subtracts flat_start twice, so the exponential stays above the cap until
step 500). -/
theorem c1_counterexample :
    defaultSchedule 250 = 1 ∧ defaultSchedule 300 = 1 ∧
      ¬ defaultSchedule 300 < defaultSchedule 250 := by
  have h1 := defaultSchedule_flat 250 (by norm_num)
  have h2 := defaultSchedule_flat 300 (by norm_num)
  exact ⟨h1, h2, by rw [h1, h2]; exact lt_irrefl 1⟩

/-- C1 (amended): the default schedule returns probability 1.0 for every
step up to 500 (in particular for every step below 250); for every step
the probability lies between 0.03 and 1.0; and from step 500 on it is
weakly decreasing, strictly so while the value is still above the floor
0.03. -/
theorem c1_default_schedule (m n : ℕ) (h500 : 500 ≤ m) (hmn : m < n) :
    (∀ k : ℕ, k ≤ 500 → defaultSchedule k = 1) ∧
      (∀ k : ℕ, 0.03 ≤ defaultSchedule k ∧ defaultSchedule k ≤ 1) ∧
      defaultSchedule n ≤ defaultSchedule m ∧
      (0.03 < defaultSchedule m → defaultSchedule n < defaultSchedule m) := by
  have hmn' : (m : ℝ) < (n : ℝ) := by exact_mod_cast hmn
  have hlt : Real.exp (0.001 * (500 - (n : ℝ))) <
      Real.exp (0.001 * (500 - (m : ℝ))) := by
    rw [Real.exp_lt_exp]
    nlinarith
  refine ⟨defaultSchedule_flat, ?_, ?_, ?_⟩
  · intro k
    by_cases hk : k < 250
    · have : defaultSchedule k = 1 := defaultSchedule_flat k (by omega)
      rw [this]
      norm_num
    · push_neg at hk
      rw [defaultSchedule_eq k hk]
      constructor
      · exact le_max_left _ _
      · exact max_le (by norm_num) (min_le_left _ _)
  · rw [defaultSchedule_tail m h500, defaultSchedule_tail n (by omega)]
    exact max_le_max le_rfl hlt.le
  · intro hm
    rw [defaultSchedule_tail m h500] at hm ⊢
    rw [defaultSchedule_tail n (by omega)]
    have hem : (0.03 : ℝ) < Real.exp (0.001 * (500 - (m : ℝ))) := by
      rcases lt_max_iff.mp hm with h | h
      · norm_num at h
      · exact h
    rw [max_eq_right hem.le]
    exact max_lt hem hlt

theorem c1_default_schedule_witness :
    500 ≤ 600 ∧ 600 < 700 ∧ defaultSchedule 700 ≤ defaultSchedule 600 :=
  ⟨by norm_num, by norm_num,
   (c1_default_schedule 600 700 (by norm_num) (by norm_num)).2.2.1⟩

theorem infNorm_cons (x : ℝ) (t : List ℝ) : infNorm (x :: t) = max |x| (infNorm t) :=
  rfl

theorem infNorm_nonneg (q : List ℝ) : 0 ≤ infNorm q := by
  induction q with
  | nil => simp [infNorm]
  | cons x t ih =>
    rw [infNorm_cons]
    exact le_max_of_le_right ih

theorem infNorm_smul (c : ℝ) (hc : 0 ≤ c) (q : List ℝ) :
    infNorm (q.map fun x => c * x) = c * infNorm q := by
  induction q with
  | nil => simp [infNorm]
  | cons x t ih =>
    simp only [List.map_cons, infNorm_cons]
    rw [ih, abs_mul, abs_of_nonneg hc, mul_max_of_nonneg _ _ hc]

theorem exp_sum_log (l : List ℝ) (h : ∀ x ∈ l, 0 < x) :
    Real.exp (l.map Real.log).sum = l.prod := by
  induction l with
  | nil => simp
  | cons x t ih =>
    simp only [List.map_cons, List.sum_cons, List.prod_cons]
    rw [Real.exp_add, Real.exp_log (h x (by simp)), ih fun y hy => h y (by simp [hy])]

theorem prod_map_div_mul (gm : ℝ) (l : List ℝ) :
    (l.map fun x => gm / x).prod * l.prod = (l.map fun x => gm / x * x).prod := by
  induction l with
  | nil => simp
  | cons x t ih =>
    simp only [List.map_cons, List.prod_cons]
    rw [← ih]
    ring

theorem geoMean_pow (l : List ℝ) (hne : l ≠ []) (h : ∀ x ∈ l, 0 < x) :
    geoMean l ^ l.length = l.prod := by
  unfold geoMean
  rw [← Real.exp_nat_mul, mul_comm, div_mul_cancel₀]
  · exact exp_sum_log l h
  · have : l.length ≠ 0 := fun hz => hne (List.length_eq_zero.mp hz)
    exact_mod_cast this

/-- C6: after psgd_balance_Q, every factor has infinity norm equal to the
geometric mean of the original infinity norms; the product of the factor
infinity norms is unchanged (exact arithmetic); and the product of the
applied per-factor scales is 1, so the represented Kronecker product,
which is multilinear in per-factor rescalings, is unchanged. -/
theorem c6_balance_equalizes_norms (Q_in : List (List ℝ)) (hne : Q_in ≠ [])
    (hpos : ∀ q ∈ Q_in, 0 < infNorm q) :
    (∀ q2 ∈ psgd_balance_Q Q_in, infNorm q2 = geoMean (Q_in.map infNorm)) ∧
      ((psgd_balance_Q Q_in).map infNorm).prod = (Q_in.map infNorm).prod ∧
      ((Q_in.map infNorm).map fun nq => geoMean (Q_in.map infNorm) / nq).prod = 1 := by
  set gm := geoMean (Q_in.map infNorm) with hgm
  have hgm_pos : 0 < gm := Real.exp_pos _
  have hnorm_pos : ∀ x ∈ Q_in.map infNorm, 0 < x := by
    intro x hx
    obtain ⟨q, hq, rfl⟩ := List.mem_map.mp hx
    exact hpos q hq
  have hnorm_ne : Q_in.map infNorm ≠ [] := by simpa using hne
  have hpow : gm ^ Q_in.length = (Q_in.map infNorm).prod := by
    rw [hgm]
    have := geoMean_pow (Q_in.map infNorm) hnorm_ne hnorm_pos
    simpa using this
  have hform : psgd_balance_Q Q_in =
      Q_in.map fun q => q.map fun x => gm / infNorm q * x := by
    unfold psgd_balance_Q
    dsimp only
    rw [← hgm, List.map_map, List.zipWith_map_left, List.zipWith_same]
    rfl
  have hone : ∀ q ∈ Q_in, infNorm (q.map fun x => gm / infNorm q * x) = gm := by
    intro q hq
    rw [infNorm_smul _ (div_nonneg hgm_pos.le (hpos q hq).le)]
    exact div_mul_cancel₀ gm (ne_of_gt (hpos q hq))
  refine ⟨?_, ?_, ?_⟩
  · intro q2 hq2
    rw [hform] at hq2
    obtain ⟨q, hq, rfl⟩ := List.mem_map.mp hq2
    exact hone q hq
  · rw [hform, List.map_map]
    have hmapc : Q_in.map (infNorm ∘ fun q => q.map fun x => gm / infNorm q * x) =
        Q_in.map fun _ => gm := by
      apply List.map_congr_left
      intro q hq
      exact hone q hq
    rw [hmapc, List.map_const', List.prod_replicate, hpow]
  · have hcancel : ((Q_in.map infNorm).map fun nq => gm / nq).prod *
        (Q_in.map infNorm).prod = (Q_in.map infNorm).prod := by
      rw [prod_map_div_mul]
      have : ((Q_in.map infNorm).map fun x => gm / x * x) =
          (Q_in.map infNorm).map fun _ => gm := by
        apply List.map_congr_left
        intro x hx
        exact div_mul_cancel₀ gm (ne_of_gt (hnorm_pos x hx))
      rw [this, List.map_const', List.prod_replicate]
      simpa using hpow
    have hprod_ne : (Q_in.map infNorm).prod ≠ 0 :=
      ne_of_gt (List.prod_pos hnorm_pos)
    have := mul_right_cancel₀ hprod_ne (hcancel.trans (one_mul _).symm)
    exact this

theorem c6_balance_equalizes_norms_witness :
    ([[(1 : ℝ)], [4]] ≠ ([] : List (List ℝ))) ∧
      ((psgd_balance_Q [[(1 : ℝ)], [4]]).map infNorm).prod =
        (([[(1 : ℝ)], [4]]).map infNorm).prod := by
  have hpos : ∀ q ∈ [[(1 : ℝ)], [4]], 0 < infNorm q := by
    intro q hq
    rcases List.mem_cons.mp hq with rfl | hq2
    · norm_num [infNorm]
    · rcases List.mem_cons.mp hq2 with rfl | hq3
      · norm_num [infNorm]
      · simp at hq3
  exact ⟨by simp, (c6_balance_equalizes_norms [[1], [4]] (by simp) hpos).2.1⟩

theorem argLe_refl (a : ℕ × ℕ) : argLe a a := by
  unfold argLe
  omega

instance : IsRefl (ℕ × ℕ) argLe := ⟨argLe_refl⟩

theorem keyedList_length (vals : List ℕ) : (keyedList vals).length = vals.length := by
  simp [keyedList]

theorem length_one_diag_dims (shape : List ℕ) :
    (one_diag_dims shape).length = shape.length := by
  simp [one_diag_dims]

theorem mem_keyedList (vals : List ℕ) (p : ℕ × ℕ) :
    p ∈ keyedList vals ↔ p.2 < vals.length ∧ p.1 = vals.getD p.2 0 := by
  unfold keyedList
  constructor
  · intro hp
    obtain ⟨i, hi, hpe⟩ := List.mem_map.mp hp
    rw [← hpe]
    exact ⟨List.mem_range.mp hi, rfl⟩
  · intro hcond
    apply List.mem_map.mpr
    refine ⟨p.2, List.mem_range.mpr hcond.1, ?_⟩
    cases p with
    | mk a b =>
      dsimp only at hcond ⊢
      rw [hcond.2]

theorem sorted_getLast_max (l : List (ℕ × ℕ)) (h : l ≠ [])
    (hs : List.Sorted argLe l) (p : ℕ × ℕ) (hp : p ∈ l) :
    argLe p (l.getLast h) := by
  obtain ⟨i, hi⟩ := List.get_of_mem hp
  have hpos : 0 < l.length := List.length_pos.mpr h
  have h1 : l.getLast h = l.get ⟨l.length - 1, by omega⟩ := by
    rw [List.getLast_eq_getElem]
    simp [List.get_eq_getElem]
  rw [h1, ← hi]
  exact hs.rel_get_of_le (Fin.le_def.mpr (by simp; omega))

theorem np_argsort_last (vals : List ℕ) (h : vals ≠ []) :
    ∃ d, (np_argsort vals).reverse.headD 0 = d ∧ d < vals.length ∧
      (∀ j, j < vals.length → vals.getD j 0 ≤ vals.getD d 0) ∧
      (∀ j, j < vals.length → vals.getD j 0 = vals.getD d 0 → j ≤ d) := by
  set S := List.insertionSort argLe (keyedList vals) with hS
  have hlen : S.length = vals.length := by
    rw [hS, List.length_insertionSort, keyedList_length]
  have hvlen : 0 < vals.length := List.length_pos.mpr h
  have hSne : S ≠ [] := List.ne_nil_of_length_pos (by rw [hlen]; exact hvlen)
  set last := S.getLast hSne with hlast
  have hsorted : List.Sorted argLe S := List.sorted_insertionSort argLe _
  have hmem_last : last ∈ keyedList vals :=
    (List.perm_insertionSort argLe (keyedList vals)).mem_iff.mp (List.getLast_mem hSne)
  obtain ⟨hd_lt, hd_val⟩ := (mem_keyedList vals last).mp hmem_last
  refine ⟨last.2, ?_, hd_lt, ?_, ?_⟩
  · unfold np_argsort
    rw [← hS, List.headD_eq_head?_getD, List.head?_reverse, List.getLast?_map,
      List.getLast?_eq_getLast S hSne, ← hlast]
    rfl
  · intro j hj
    have hpj : (vals.getD j 0, j) ∈ S := by
      rw [hS, List.mem_insertionSort]
      exact (mem_keyedList vals _).mpr ⟨hj, rfl⟩
    have harg := sorted_getLast_max S hSne hsorted _ hpj
    rw [← hlast] at harg
    unfold argLe at harg
    dsimp only at harg
    rw [hd_val] at harg
    omega
  · intro j hj heq
    have hpj : (vals.getD j 0, j) ∈ S := by
      rw [hS, List.mem_insertionSort]
      exact (mem_keyedList vals _).mpr ⟨hj, rfl⟩
    have harg := sorted_getLast_max S hSne hsorted _ hpj
    rw [← hlast] at harg
    unfold argLe at harg
    dsimp only at harg
    rw [hd_val] at harg
    omega

theorem one_diag_dims_spec (shape : List ℕ) (h : shape ≠ []) :
    ∃ d, d < shape.length ∧
      (one_diag_dims shape).getD d false = true ∧
      (∀ j, j < shape.length → j ≠ d → (one_diag_dims shape).getD j false = false) ∧
      (∀ j, j < shape.length → shape.getD j 0 ≤ shape.getD d 0) ∧
      (∀ j, j < shape.length → shape.getD j 0 = shape.getD d 0 → j ≤ d) := by
  obtain ⟨d, hd_eq, hd_lt, hmax, hties⟩ := np_argsort_last shape h
  refine ⟨d, hd_lt, ?_, ?_, hmax, hties⟩
  · unfold one_diag_dims
    dsimp only
    rw [hd_eq]
    rw [List.getD_eq_getElem _ _ (by simpa using hd_lt)]
    simp [List.getElem_set]
  · intro j hj hne
    unfold one_diag_dims
    dsimp only
    rw [hd_eq]
    rw [List.getD_eq_getElem _ _ (by simpa using hj)]
    rw [List.getElem_set]
    rw [if_neg fun hdj => hne hdj.symm]
    exact List.getElem_replicate _ _

theorem dim_diag_of_valid (mode : Option String) (shape : List ℕ)
    (h : isValidMode mode) :
    ∃ dims, dim_diag_of mode shape = Except.ok dims ∧ dims.length = shape.length := by
  unfold dim_diag_of
  rcases h with h | h | h
  · rw [if_pos h]
    exact ⟨_, rfl, List.length_replicate _ _⟩
  · rw [if_neg (by rw [h]; exact fun hc => by cases hc), if_pos h]
    exact ⟨_, rfl, length_one_diag_dims shape⟩
  · rw [if_neg (by rw [h]; exact fun hc => by cases hc),
      if_neg (by rw [h]; intro hc; simp at hc), if_pos h]
    exact ⟨_, rfl, List.length_replicate _ _⟩

theorem eyeScaled_length (n : ℕ) (s : ℝ) : (eyeScaled n s).length = n := by
  simp [eyeScaled]

theorem eyeScaled_row_length (n : ℕ) (s : ℝ) (r : ℕ) (hr : r < n) :
    ((eyeScaled n s).getD r []).length = n := by
  unfold eyeScaled
  rw [List.getD_eq_getElem _ _ (by simpa using hr)]
  simp

theorem getD_map_range {α : Type} (n r : ℕ) (d : α) (f : ℕ → α) (hr : r < n) :
    ((List.range n).map f).getD r d = f r := by
  rw [List.getD_eq_getElem _ _ (by simpa using hr), List.getElem_map,
    List.getElem_range]

theorem eyeScaled_entry (n : ℕ) (s : ℝ) (r c : ℕ) (hr : r < n) (hc : c < n) :
    ((eyeScaled n s).getD r []).getD c 0 = if r = c then s else 0 := by
  unfold eyeScaled
  rw [getD_map_range _ _ _ _ hr, getD_map_range _ _ _ _ hc]
  split_ifs <;> simp

/-- C8: for every tensor whose synthesis succeeds (rank at most 13 and a
valid memory-save mode), the factor list has length equal to the rank (1
for a rank-0 tensor, a single 0-dim factor); each factor under the
diagonal condition (axis size 1, axis size above max_size, rank below
min_ndim_triangular, or marked by dim_diag) is a 1-D vector of length
equal to the axis size filled with scale ** (1 / rank), and every other
factor is a square axis-size by axis-size matrix equal to that scale times
the identity. -/
theorem c8_init_Q_structure (shape : List ℕ) (scale : ℝ)
    (max_size min_ndim_triangular : ℕ) (mode : Option String)
    (hrank : shape.length ≤ 13) (hmode : isValidMode mode) :
    ∃ Q dims,
      init_Q_exprs shape scale max_size min_ndim_triangular mode = Except.ok Q ∧
      dim_diag_of mode shape = Except.ok dims ∧
      Q.length = (if shape.length = 0 then 1 else shape.length) ∧
      (shape.length = 0 → Q = [QFactor.scalarF scale]) ∧
      (∀ i, i < shape.length →
        ((shape.getD i 0 = 1 ∨ max_size < shape.getD i 0 ∨
            shape.length < min_ndim_triangular ∨ dims.getD i false = true) →
          Q.getD i (QFactor.scalarF 0) =
            QFactor.diagF (List.replicate (shape.getD i 0)
              (scale ^ ((1 : ℝ) / (shape.length : ℝ))))) ∧
        (¬ (shape.getD i 0 = 1 ∨ max_size < shape.getD i 0 ∨
            shape.length < min_ndim_triangular ∨ dims.getD i false = true) →
          ∃ M, Q.getD i (QFactor.scalarF 0) = QFactor.triF M ∧
            M.length = shape.getD i 0 ∧
            (∀ r, r < shape.getD i 0 → (M.getD r []).length = shape.getD i 0) ∧
            (∀ r c, r < shape.getD i 0 → c < shape.getD i 0 →
              (M.getD r []).getD c 0 =
                if r = c then scale ^ ((1 : ℝ) / (shape.length : ℝ)) else 0))) := by
  obtain ⟨dims, hdims, hdlen⟩ := dim_diag_of_valid mode shape hmode
  by_cases h0 : shape.length = 0
  · refine ⟨[QFactor.scalarF scale], dims, ?_, hdims, by simp [h0], fun _ => rfl, ?_⟩
    · unfold init_Q_exprs
      rw [if_pos h0]
    · intro i hi
      omega
  · set scale2 := scale ^ ((1 : ℝ) / (shape.length : ℝ)) with hscale2
    set Q := (shape.zip dims).map (fun sd =>
        if sd.1 = 1 ∨ max_size < sd.1 ∨ shape.length < min_ndim_triangular ∨
            sd.2 = true
        then QFactor.diagF (List.replicate sd.1 scale2)
        else QFactor.triF (eyeScaled sd.1 scale2)) with hQ
    have hinit : init_Q_exprs shape scale max_size min_ndim_triangular mode =
        Except.ok Q := by
      unfold init_Q_exprs
      rw [if_neg h0, if_neg (by omega)]
      dsimp only
      rw [hdims]
    have hziplen : (shape.zip dims).length = shape.length := by
      rw [List.length_zip, hdlen, Nat.min_self]
    have hQlen : Q.length = shape.length := by
      rw [hQ, List.length_map, hziplen]
    refine ⟨Q, dims, hinit, hdims, by rw [if_neg h0]; exact hQlen,
      fun hc => absurd hc h0, ?_⟩
    intro i hi
    have hdi : i < dims.length := by rw [hdlen]; exact hi
    have hQi : Q.getD i (QFactor.scalarF 0) =
        (if shape.getD i 0 = 1 ∨ max_size < shape.getD i 0 ∨
            shape.length < min_ndim_triangular ∨ dims.getD i false = true
         then QFactor.diagF (List.replicate (shape.getD i 0) scale2)
         else QFactor.triF (eyeScaled (shape.getD i 0) scale2)) := by
      rw [hQ]
      rw [List.getD_eq_getElem _ _ (by rw [List.length_map, hziplen]; exact hi)]
      rw [List.getElem_map, List.getElem_zip]
      dsimp only
      rw [← List.getD_eq_getElem shape 0 hi, ← List.getD_eq_getElem dims false hdi]
    constructor
    · intro hcond
      rw [hQi, if_pos hcond]
    · intro hcond
      rw [hQi, if_neg hcond]
      exact ⟨eyeScaled (shape.getD i 0) scale2, rfl, eyeScaled_length _ _,
        fun r hr => eyeScaled_row_length _ _ r hr,
        fun r c hr hc => eyeScaled_entry _ _ r c hr hc⟩

theorem c8_init_Q_structure_witness :
    (([4, 2] : List ℕ).length ≤ 13 ∧ isValidMode (none : Option String)) ∧
      ∃ Q, init_Q_exprs [4, 2] 1 2048 2 none = Except.ok Q := by
  refine ⟨⟨by decide, by decide⟩, ?_⟩
  obtain ⟨Q, dims, hQ, -⟩ :=
    c8_init_Q_structure [4, 2] 1 2048 2 none (by decide) (by decide)
  exact ⟨Q, hQ⟩

/-- C2 counterexample: on shape (4,4,2) with max triangular size 8, min
rank 2 and mode one_diag, the diagonal axis chosen by the code is axis 1,
not axis 0: np.argsort ascending is stable, so its reversal lists the tied
maximal axes in descending index order and rev_sorted_dims[0] is 1. -/
theorem c2_counterexample :
    (init_Q_exprs [4, 4, 2] 1 8 2 (some "one_diag")).map (List.map QFactor.isDiag) =
        Except.ok [false, true, false] ∧
      (init_Q_exprs [4, 4, 2] 1 8 2 (some "one_diag")).map (List.map QFactor.isDiag) ≠
        Except.ok [true, false, false] := by
  have h1 : (init_Q_exprs [4, 4, 2] 1 8 2 (some "one_diag")).map
      (List.map QFactor.isDiag) = Except.ok [false, true, false] := rfl
  refine ⟨h1, ?_⟩
  rw [h1]
  intro hcontra
  simp at hcontra

/-- C2 (amended): for every nonempty shape under mode one_diag exactly one
axis is marked diagonal in dim_diag, an axis of maximal size, with ties
broken toward the highest index (the reversal of the stable ascending
np.argsort lists tied maxima by descending index, so the first entry is
the last-occurring maximal axis); in particular on shape (4,4,2) with max
triangular size 8 and min rank 2, axis 1 becomes diagonal and axes 0 and 2
triangular. -/
theorem c2_one_diag_marks (shape : List ℕ) (h : shape ≠ []) :
    (∃ d, d < shape.length ∧ (one_diag_dims shape).getD d false = true ∧
        (∀ j, j < shape.length → j ≠ d → (one_diag_dims shape).getD j false = false) ∧
        (∀ j, j < shape.length → shape.getD j 0 ≤ shape.getD d 0) ∧
        (∀ j, j < shape.length → shape.getD j 0 = shape.getD d 0 → j ≤ d)) ∧
      (init_Q_exprs [4, 4, 2] 1 8 2 (some "one_diag")).map (List.map QFactor.isDiag) =
        Except.ok [false, true, false] :=
  ⟨one_diag_dims_spec shape h, rfl⟩

theorem c2_one_diag_marks_witness :
    (([4, 4, 2] : List ℕ) ≠ []) ∧
      ∃ d, d < ([4, 4, 2] : List ℕ).length ∧
        (one_diag_dims [4, 4, 2]).getD d false = true := by
  refine ⟨by decide, ?_⟩
  obtain ⟨⟨d, hd, hset, -⟩, -⟩ := c2_one_diag_marks [4, 4, 2] (by decide)
  exact ⟨d, hd, hset⟩

end HeavyBall
